import Mathlib

/-
Shallow embedding of the computational core of the bb-staff repository
(the amortized-cost-viz chart components and the CSV extraction script).
JavaScript numbers are modelled as exact rationals: every arithmetic
operation performed by the code (addition, multiplication, division,
integer-exponent Math.pow, Math.abs, Math.max, comparisons) is exact on
the rationals, so the model is the idealized real-number semantics the
specification describes.
-/

/-- Growth factor `g(level) = 0.01 + (level - 1) * 0.0025`.  The same
function is defined verbatim in AmortizedCostChart.tsx,
MaxHiringFeeChart.tsx, SalaryComparisonChart.tsx and the extraction
script. -/
def growthFactor (level : ℚ) : ℚ :=
  0.01 + (level - 1) * 0.0025

/-- A reference data point `{salary, cost}`. -/
structure Point where
  salary : ℚ
  cost : ℚ
deriving DecidableEq, Repr

/-- The duration-scan loop shared by the three duration optimizers: state
`(minCost, bestT)`, updated exactly when `f T < minCost` (strict
comparison, so the earliest minimizer is kept).  Two of the sources
(extraction script, MaxHiringFeeChart) initialize `minCost` to
`Infinity`, so their first iteration (`T = 1`) always replaces the state
with `(f 1, 1)`; AmortizedCostChart initializes the state to `(f 1, 1)`
directly and scans from `T = 1`, where the first check `f 1 < f 1` fails.
Both loops therefore equal this fold started from `(f 1, 1)` over the
full duration list. -/
def scanMin (f : ℕ → ℚ) : ℚ × ℕ → List ℕ → ℚ × ℕ
  | acc, [] => acc
  | acc, T :: ts => if f T < acc.1 then scanMin f (f T, T) ts else scanMin f acc ts

namespace AmortizedCostChart

/-- The hiring-cost formula record of AmortizedCostChart.tsx.  Only the
`parameters` map (level to reference points) is computationally relevant;
the `type`, `formula` and `rSquared` fields are display-only and do not
enter any computation. -/
structure HiringCostFormula where
  parameters : ℚ → Option (List Point)

/-- The final for-loop of `interpolateHiringCost` (lines 125-134): scan
consecutive pairs of the sorted list and linearly interpolate at the
first bracketing pair, returning null if none brackets. -/
def interpolatePairs (salary : ℚ) : List Point → Option ℚ
  | p1 :: p2 :: rest =>
    if p1.salary ≤ salary ∧ salary ≤ p2.salary then
      some (p1.cost + (salary - p1.salary) / (p2.salary - p1.salary) * (p2.cost - p1.cost))
    else interpolatePairs salary (p2 :: rest)
  | _ => none

/-- The below-range branch of `interpolateHiringCost` (lines 109-114):
if the queried salary is below the lowest sorted sample and there are at
least two samples, extrapolate using the slope of the first two. -/
def extrapolateLow (salary : ℚ) : List Point → Option ℚ
  | p1 :: p2 :: _ =>
    if salary < p1.salary then
      some (p1.cost + (p2.cost - p1.cost) / (p2.salary - p1.salary) * (salary - p1.salary))
    else none
  | _ => none

/-- The above-range branch of `interpolateHiringCost` (lines 117-122):
if the queried salary is above the highest sorted sample and there are at
least two samples, extrapolate using the slope of the last two.  The last
two samples (source indices `length-2`, `length-1`) are the first two of
the reversed list. -/
def extrapolateHigh (salary : ℚ) (sorted : List Point) : Option ℚ :=
  match sorted.reverse with
  | p2 :: p1 :: _ =>
    if p2.salary < salary then
      some (p2.cost + (p2.cost - p1.cost) / (p2.salary - p1.salary) * (salary - p2.salary))
    else none
  | _ => none

/-- `interpolateHiringCost` (lines 97-137): null on no data, the single
point's cost on one sample; otherwise sort by salary (JavaScript
`Array.sort` with comparator `a.salary - b.salary` is a stable ascending
sort, modelled by a stable merge sort with `a.salary ≤ b.salary`), return
an exact match's cost if one exists, else extrapolate below / above the
data range, else interpolate between the bracketing pair. -/
def interpolateHiringCost (salary : ℚ) (points : List Point) : Option ℚ :=
  match points with
  | [] => none
  | [p0] => some p0.cost
  | _ :: _ :: _ =>
    let sortedPoints := points.mergeSort (fun a b => decide (a.salary ≤ b.salary))
    match sortedPoints.find? (fun p => decide (p.salary = salary)) with
    | some exactMatch => some exactMatch.cost
    | none =>
      match extrapolateLow salary sortedPoints with
      | some v => some v
      | none =>
        match extrapolateHigh salary sortedPoints with
        | some v => some v
        | none => interpolatePairs salary sortedPoints

/-- `hiringCost` (lines 164-173): interpolation floored at 1000, with
1000 as the fallback when the level has no reference points or the
interpolator returns null. -/
def hiringCost (startingSalary level : ℚ) (formula : HiringCostFormula) : ℚ :=
  match formula.parameters level with
  | none => 1000
  | some points =>
    if points = [] then 1000
    else
      match interpolateHiringCost startingSalary points with
      | some interpolated => max 1000 interpolated
      | none => 1000

/-- `calculateAmortizedCost` (lines 176-187):
`A(S,T,level) = (h(S,level) + S * ((1+g)^(T+1) - 1) / g) / T`, with the
degenerate sum `S * (T + 1)` when `g = 0`. -/
def calculateAmortizedCost (S : ℚ) (T : ℕ) (level : ℚ) (hiringFormula : HiringCostFormula) : ℚ :=
  let g := growthFactor level
  let h := hiringCost S level hiringFormula
  if g = 0 then
    (h + S * ((T : ℚ) + 1)) / (T : ℚ)
  else
    let maintenanceSum := S * ((1 + g) ^ (T + 1) - 1) / g
    (h + maintenanceSum) / (T : ℚ)

/-- `findAmortizedCostMinimum` (lines 190-216): null when `g = 0`,
otherwise the `{week, cost}` pair of the strict-improvement scan over
durations 1..500 started at `(cost at 1, 1)`. -/
def findAmortizedCostMinimum (S level : ℚ) (hiringFormula : HiringCostFormula) :
    Option (ℕ × ℚ) :=
  let g := growthFactor level
  if g = 0 then none
  else
    let r := scanMin (fun t => calculateAmortizedCost S t level hiringFormula)
      (calculateAmortizedCost S 1 level hiringFormula, 1) (List.range' 1 500)
    some (r.2, r.1)

end AmortizedCostChart

namespace MaxHiringFeeChart

/-- Loop body of `findOptimalDuration` in MaxHiringFeeChart.tsx
(lines 67-74): the amortized cost
`(hiringCost + salary * ((1+g)^(T+1) - 1) / g) / T` at duration `T`. -/
def amortizedAt (hiringCost salary g : ℚ) (T : ℕ) : ℚ :=
  (hiringCost + salary * ((1 + g) ^ (T + 1) - 1) / g) / (T : ℚ)

/-- `findOptimalDuration` (lines 51-78): returns the default 100 when
`g = 0`, otherwise the arg-min duration of the scan over 1..500. -/
def findOptimalDuration (hiringCost salary level : ℚ) : ℕ :=
  let g := growthFactor level
  if g = 0 then 100
  else
    (scanMin (amortizedAt hiringCost salary g)
      (amortizedAt hiringCost salary g 1, 1) (List.range' 1 500)).2

/-- `calculateOptimalAmortizedCost` (lines 81-95): recompute the
amortized cost (with the `g = 0` degenerate sum guarded) at the duration
found by `findOptimalDuration`, returning the `{cost, duration}` pair. -/
def calculateOptimalAmortizedCost (hiringCost salary level : ℚ) : ℚ × ℕ :=
  let optimalDuration := findOptimalDuration hiringCost salary level
  let g := growthFactor level
  let maintenanceSum :=
    if g = 0 then salary * ((optimalDuration : ℚ) + 1)
    else salary * ((1 + g) ^ (optimalDuration + 1) - 1) / g
  ((hiringCost + maintenanceSum) / (optimalDuration : ℚ), optimalDuration)

/-- Bisection loop of `findHiringCostForTarget` (lines 105-123): at each
of the remaining iterations evaluate the optimizer at the midpoint,
return it if its cost is within 1 of the target, otherwise narrow the
half of the bracket indicated by the comparison; the running best is
always the last midpoint and its duration. -/
def searchLoop (targetCost salary level : ℚ) : ℕ → ℚ → ℚ → ℚ × ℕ → ℚ × ℕ
  | 0, _, _, best => best
  | n + 1, low, high, _ =>
    let mid := (low + high) / 2
    let result := calculateOptimalAmortizedCost mid salary level
    if |result.1 - targetCost| < 1 then (mid, result.2)
    else if targetCost < result.1 then
      searchLoop targetCost salary level n low mid (mid, result.2)
    else
      searchLoop targetCost salary level n mid high (mid, result.2)

/-- `findHiringCostForTarget` (lines 98-126): 50 bisection iterations on
the bracket [1000, 1000000], initial best `(1000, 1)`. -/
def findHiringCostForTarget (targetCost salary level : ℚ) : ℚ × ℕ :=
  searchLoop targetCost salary level 50 1000 1000000 (1000, 1)

/-- Chart-data cell policy (lines 158-167): a (salary, targetCost) cell
is stored in the chart data exactly when the returned fee is strictly
above 1001 and at most 1000000; otherwise the cell is omitted. -/
def feeCell (targetCost salary level : ℚ) : Option (ℚ × ℕ) :=
  let result := findHiringCostForTarget targetCost salary level
  if 1001 < result.1 ∧ result.1 ≤ 1000000 then some result else none

end MaxHiringFeeChart

namespace ExtractScript

/-- Loop body of `calculateOptimalAmortizedCost` in the extraction script
(part_000 lines 22-24): `growthTerm = ((1+g)^(T+1) - 1) / g` and
amortized cost `(hiringCostInput + salary * growthTerm) / T`. -/
def amortizedCost (hiringCostInput salary level : ℚ) (T : ℕ) : ℚ :=
  let g := growthFactor level
  let growthTerm := ((1 + g) ^ (T + 1) - 1) / g
  (hiringCostInput + salary * growthTerm) / (T : ℚ)

/-- `calculateOptimalAmortizedCost` (part_000 lines 17-33): the
strict-improvement scan of the amortized cost over durations 1..150,
returning the `{cost, duration}` pair. -/
def calculateOptimalAmortizedCost (hiringCostInput salary level : ℚ) : ℚ × ℕ :=
  scanMin (amortizedCost hiringCostInput salary level)
    (amortizedCost hiringCostInput salary level 1, 1) (List.range' 1 150)

/-- Bisection loop of `findHiringCostForTarget` (part_000 lines 42-60);
identical to the chart version except that it calls the script's
1..150 optimizer. -/
def searchLoop (targetCost salary level : ℚ) : ℕ → ℚ → ℚ → ℚ × ℕ → ℚ × ℕ
  | 0, _, _, best => best
  | n + 1, low, high, _ =>
    let mid := (low + high) / 2
    let result := calculateOptimalAmortizedCost mid salary level
    if |result.1 - targetCost| < 1 then (mid, result.2)
    else if targetCost < result.1 then
      searchLoop targetCost salary level n low mid (mid, result.2)
    else
      searchLoop targetCost salary level n mid high (mid, result.2)

/-- `findHiringCostForTarget` (part_000 lines 36-63): 50 bisection
iterations on the bracket [1000, 1000000], initial best `(1000, 1)`. -/
def findHiringCostForTarget (targetCost salary level : ℚ) : ℚ × ℕ :=
  searchLoop targetCost salary level 50 1000 1000000 (1000, 1)

/-- JavaScript `Math.round`: round half toward positive infinity. -/
def jsRound (q : ℚ) : ℤ := ⌊q + 1 / 2⌋

/-- CSV cell policy of the extraction script (part_000 lines 119-125):
a (salary, targetCost) cell holds the rounded fee exactly when the
returned fee is strictly above 1001 and at most 1000000; otherwise the
cell is emitted as an empty field. -/
def hiringFeeCell (targetCost salary level : ℚ) : Option ℤ :=
  let result := findHiringCostForTarget targetCost salary level
  if 1001 < result.1 ∧ result.1 ≤ 1000000 then some (jsRound result.1) else none

end ExtractScript

/-! Generic facts about the duration-scan fold. -/

/-- Invariants of the strict-improvement scan: the state always pairs a
cost with a duration attaining it, the final cost is a lower bound for
every scanned duration (and for the initial state), the final duration is
the initial one or a scanned one, the state only changes on strict
improvement, and among scanned durations attaining the final cost the
earliest one is kept. -/
theorem scanMin_spec (f : ℕ → ℚ) (l : List ℕ) :
    ∀ acc : ℚ × ℕ, acc.1 = f acc.2 → (∀ T ∈ l, acc.2 ≤ T) →
      l.Pairwise (· ≤ ·) →
      (scanMin f acc l).1 = f (scanMin f acc l).2 ∧
      (scanMin f acc l).1 ≤ acc.1 ∧
      (∀ T ∈ l, (scanMin f acc l).1 ≤ f T) ∧
      (scanMin f acc l = acc ∨ (scanMin f acc l).2 ∈ l) ∧
      ((scanMin f acc l).1 = acc.1 → scanMin f acc l = acc) ∧
      (∀ T ∈ l, f T = (scanMin f acc l).1 → (scanMin f acc l).2 ≤ T) := by
  induction l with
  | nil =>
    intro acc h1 _ _
    refine ⟨h1, le_refl _, ?_, Or.inl rfl, fun _ => rfl, ?_⟩
    · intro T hT
      exact absurd hT (List.not_mem_nil T)
    · intro T hT
      exact absurd hT (List.not_mem_nil T)
  | cons T ts ih =>
    intro acc h1 h2 h3
    have h3' := List.pairwise_cons.mp h3
    by_cases hlt : f T < acc.1
    · have step : scanMin f acc (T :: ts) = scanMin f (f T, T) ts := by
        simp [scanMin, hlt]
      obtain ⟨i1, i2, i3, i4, i5, i6⟩ :=
        ih (f T, T) rfl (fun U hU => h3'.1 U hU) h3'.2
      rw [step]
      refine ⟨i1, le_of_lt (lt_of_le_of_lt i2 hlt), ?_, ?_, ?_, ?_⟩
      · intro U hU
        rcases List.mem_cons.mp hU with h | h
        · exact h ▸ i2
        · exact i3 U h
      · rcases i4 with h | h
        · right
          rw [h]
          exact List.mem_cons_self T ts
        · right
          exact List.mem_cons_of_mem T h
      · intro hEq
        exact absurd (lt_of_le_of_lt (hEq ▸ i2) hlt) (lt_irrefl _)
      · intro U hU hfU
        rcases List.mem_cons.mp hU with h | h
        · have hr := i5 (h ▸ hfU).symm
          rw [hr, h]
        · exact i6 U h hfU
    · have step : scanMin f acc (T :: ts) = scanMin f acc ts := by
        simp [scanMin, hlt]
      have hTge : acc.1 ≤ f T := not_lt.mp hlt
      obtain ⟨i1, i2, i3, i4, i5, i6⟩ :=
        ih acc h1 (fun U hU => h2 U (List.mem_cons_of_mem T hU)) h3'.2
      rw [step]
      refine ⟨i1, i2, ?_, ?_, i5, ?_⟩
      · intro U hU
        rcases List.mem_cons.mp hU with h | h
        · exact h ▸ le_trans i2 hTge
        · exact i3 U h
      · rcases i4 with h | h
        · exact Or.inl h
        · exact Or.inr (List.mem_cons_of_mem T h)
      · intro U hU hfU
        rcases List.mem_cons.mp hU with h | h
        · have hreq : (scanMin f acc ts).1 = acc.1 :=
            le_antisymm i2 (by rw [← h] at hTge; exact hfU ▸ hTge)
          rw [i5 hreq, h]
          exact h2 T (List.mem_cons_self T ts)
        · exact i6 U h hfU

/-- The scan distributes over list append. -/
theorem scanMin_append (f : ℕ → ℚ) (l₁ : List ℕ) :
    ∀ (acc : ℚ × ℕ) (l₂ : List ℕ),
      scanMin f acc (l₁ ++ l₂) = scanMin f (scanMin f acc l₁) l₂ := by
  induction l₁ with
  | nil => intro acc l₂; simp [scanMin]
  | cons T ts ih =>
    intro acc l₂
    by_cases hlt : f T < acc.1
    · simp [scanMin, hlt, ih]
    · simp [scanMin, hlt, ih]

/-- Specification of the scan over durations `1..n` started from
`(f 1, 1)`: the result pairs the minimum of `f` over `[1, n]` with the
earliest duration attaining it. -/
theorem scanMin_from_one (f : ℕ → ℚ) (n : ℕ) (hn : 1 ≤ n) :
    (scanMin f (f 1, 1) (List.range' 1 n)).1 =
      f (scanMin f (f 1, 1) (List.range' 1 n)).2 ∧
    1 ≤ (scanMin f (f 1, 1) (List.range' 1 n)).2 ∧
    (scanMin f (f 1, 1) (List.range' 1 n)).2 ≤ n ∧
    (∀ T : ℕ, 1 ≤ T → T ≤ n →
      (scanMin f (f 1, 1) (List.range' 1 n)).1 ≤ f T) ∧
    (∀ T : ℕ, 1 ≤ T → T ≤ n →
      f T = (scanMin f (f 1, 1) (List.range' 1 n)).1 →
      (scanMin f (f 1, 1) (List.range' 1 n)).2 ≤ T) := by
  have hmem : ∀ T ∈ List.range' 1 n, 1 ≤ T :=
    fun T hT => (List.mem_range'_1.mp hT).1
  have hpw : (List.range' 1 n).Pairwise (· ≤ ·) :=
    (List.pairwise_lt_range' 1 n).imp le_of_lt
  obtain ⟨i1, i2, i3, i4, i5, i6⟩ := scanMin_spec f (List.range' 1 n) (f 1, 1) rfl hmem hpw
  have hbounds : 1 ≤ (scanMin f (f 1, 1) (List.range' 1 n)).2 ∧
      (scanMin f (f 1, 1) (List.range' 1 n)).2 ≤ n := by
    rcases i4 with h | h
    · rw [h]
      exact ⟨le_refl 1, hn⟩
    · have := List.mem_range'_1.mp h
      omega
  have hin : ∀ T : ℕ, 1 ≤ T → T ≤ n → T ∈ List.range' 1 n :=
    fun T h1 h2 => List.mem_range'_1.mpr ⟨h1, by omega⟩
  exact ⟨i1, hbounds.1, hbounds.2,
    fun T h1 h2 => i3 T (hin T h1 h2),
    fun T h1 h2 hf => i6 T (hin T h1 h2) hf⟩

/-- The growth factor is strictly positive for every level at least 1. -/
theorem growthFactor_pos {level : ℚ} (h : 1 ≤ level) : 0 < growthFactor level := by
  unfold growthFactor
  have h1 : (0 : ℚ) ≤ (level - 1) * 0.0025 :=
    mul_nonneg (by linarith) (by norm_num)
  norm_num
  linarith

/-- The growth factor is nonzero for every level at least 1. -/
theorem growthFactor_ne_zero {level : ℚ} (h : 1 ≤ level) : growthFactor level ≠ 0 :=
  ne_of_gt (growthFactor_pos h)

/-- The chart-side cost at a fixed duration is monotone in the hiring
cost. -/
theorem amortizedAt_mono {h h' S g : ℚ} {T : ℕ} (hT : 1 ≤ T) (hh : h ≤ h') :
    MaxHiringFeeChart.amortizedAt h S g T ≤ MaxHiringFeeChart.amortizedAt h' S g T := by
  have hTpos : (0 : ℚ) < (T : ℚ) := by exact_mod_cast Nat.lt_of_lt_of_le Nat.zero_lt_one hT
  unfold MaxHiringFeeChart.amortizedAt
  rw [div_le_div_iff_of_pos_right hTpos]
  linarith

/-- The script-side cost at a fixed duration is monotone in the hiring
cost. -/
theorem scriptAmortized_mono {h h' S level : ℚ} {T : ℕ} (hT : 1 ≤ T) (hh : h ≤ h') :
    ExtractScript.amortizedCost h S level T ≤ ExtractScript.amortizedCost h' S level T := by
  have hTpos : (0 : ℚ) < (T : ℚ) := by exact_mod_cast Nat.lt_of_lt_of_le Nat.zero_lt_one hT
  simp only [ExtractScript.amortizedCost]
  rw [div_le_div_iff_of_pos_right hTpos]
  linarith

/-- Raising the hiring cost by `d` raises the script-side cost at a fixed
duration by exactly `d / T`. -/
theorem scriptAmortized_shift (h h' S level : ℚ) (T : ℕ) :
    ExtractScript.amortizedCost h' S level T =
      ExtractScript.amortizedCost h S level T + (h' - h) / (T : ℚ) := by
  simp only [ExtractScript.amortizedCost]
  ring

/-- When the growth factor is nonzero, the chart's
`calculateOptimalAmortizedCost` is exactly the 1..500 scan. -/
theorem maxFee_opt_eq_scan (h S level : ℚ) (hg : growthFactor level ≠ 0) :
    MaxHiringFeeChart.calculateOptimalAmortizedCost h S level =
      scanMin (MaxHiringFeeChart.amortizedAt h S (growthFactor level))
        (MaxHiringFeeChart.amortizedAt h S (growthFactor level) 1, 1)
        (List.range' 1 500) := by
  obtain ⟨i1, _, _, _, _⟩ :=
    scanMin_from_one (MaxHiringFeeChart.amortizedAt h S (growthFactor level)) 500 (by norm_num)
  simp only [MaxHiringFeeChart.calculateOptimalAmortizedCost,
    MaxHiringFeeChart.findOptimalDuration, if_neg hg]
  refine Prod.ext ?_ rfl
  rw [i1]
  rfl

/-- Helper for the suppression policies: a guarded `some` is `none`
exactly when the guard fails. -/
theorem ite_some_eq_none_iff {α : Type} {c : Prop} [Decidable c] {x : α} :
    (if c then some x else none) = none ↔ ¬c := by
  split_ifs with h <;> simp [h]

/-- C1: for every acquisition cost, salary and level, the Duration
Optimizer (the extraction script's `calculateOptimalAmortizedCost`,
`D_max = 150`) returns a pair whose cost is the minimum of the amortized
cost over integer durations in `[1, 150]`, whose duration lies in
`[1, 150]` and attains that minimum, and whose duration is the smallest
minimizer (strict `<` comparison keeps the earliest). -/
theorem durationOptimizer_minimizes (hic S level : ℚ) :
    (∀ T : ℕ, 1 ≤ T → T ≤ 150 →
      (ExtractScript.calculateOptimalAmortizedCost hic S level).1 ≤
        ExtractScript.amortizedCost hic S level T) ∧
    (ExtractScript.calculateOptimalAmortizedCost hic S level).1 =
      ExtractScript.amortizedCost hic S level
        (ExtractScript.calculateOptimalAmortizedCost hic S level).2 ∧
    1 ≤ (ExtractScript.calculateOptimalAmortizedCost hic S level).2 ∧
    (ExtractScript.calculateOptimalAmortizedCost hic S level).2 ≤ 150 ∧
    (∀ T : ℕ, 1 ≤ T → T ≤ 150 →
      ExtractScript.amortizedCost hic S level T =
        (ExtractScript.calculateOptimalAmortizedCost hic S level).1 →
      (ExtractScript.calculateOptimalAmortizedCost hic S level).2 ≤ T) := by
  obtain ⟨i1, i2, i3, i4, i5⟩ :=
    scanMin_from_one (ExtractScript.amortizedCost hic S level) 150 (by norm_num)
  exact ⟨i4, i1, i2, i3, i5⟩

/-- C1 witness: instance of the minimality bound at a concrete input. -/
theorem durationOptimizer_minimizes_witness :
    (ExtractScript.calculateOptimalAmortizedCost 1000 8000 3).1 ≤
      ExtractScript.amortizedCost 1000 8000 3 42 :=
  (durationOptimizer_minimizes 1000 8000 3).1 42 (by norm_num) (by norm_num)

/-- C2: for salary > 0, duration at least 1, level at least 1 and
non-negative acquisition cost, the amortized cost is non-negative and
monotone non-decreasing in the acquisition cost; consequently the optimal
amortized cost returned by the Duration Optimizer
(MaxHiringFeeChart's `calculateOptimalAmortizedCost`) is also
non-decreasing in the acquisition cost. -/
theorem amortized_nonneg_and_monotone (S level acq acq' : ℚ) (T : ℕ)
    (hS : 0 < S) (hlevel : 1 ≤ level) (hT : 1 ≤ T) (hacq : 0 ≤ acq) :
    0 ≤ ExtractScript.amortizedCost acq S level T ∧
    (acq ≤ acq' →
      ExtractScript.amortizedCost acq S level T ≤
        ExtractScript.amortizedCost acq' S level T) ∧
    (acq ≤ acq' →
      (MaxHiringFeeChart.calculateOptimalAmortizedCost acq S level).1 ≤
        (MaxHiringFeeChart.calculateOptimalAmortizedCost acq' S level).1) := by
  have hg := growthFactor_pos hlevel
  have hTpos : (0 : ℚ) < (T : ℚ) := by exact_mod_cast Nat.lt_of_lt_of_le Nat.zero_lt_one hT
  refine ⟨?_, fun hh => scriptAmortized_mono hT hh, fun hh => ?_⟩
  · simp only [ExtractScript.amortizedCost]
    apply div_nonneg _ (le_of_lt hTpos)
    have hpow : (1 : ℚ) ≤ (1 + growthFactor level) ^ (T + 1) :=
      one_le_pow₀ (by linarith)
    have hdiv : (0 : ℚ) ≤ ((1 + growthFactor level) ^ (T + 1) - 1) / growthFactor level :=
      div_nonneg (by linarith) (le_of_lt hg)
    have := mul_nonneg (le_of_lt hS) hdiv
    linarith
  · have hgne := ne_of_gt hg
    rw [maxFee_opt_eq_scan acq S level hgne, maxFee_opt_eq_scan acq' S level hgne]
    obtain ⟨j1, j2, j3, j4, j5⟩ :=
      scanMin_from_one (MaxHiringFeeChart.amortizedAt acq S (growthFactor level)) 500
        (by norm_num)
    obtain ⟨k1, k2, k3, k4, k5⟩ :=
      scanMin_from_one (MaxHiringFeeChart.amortizedAt acq' S (growthFactor level)) 500
        (by norm_num)
    calc (scanMin (MaxHiringFeeChart.amortizedAt acq S (growthFactor level))
            (MaxHiringFeeChart.amortizedAt acq S (growthFactor level) 1, 1)
            (List.range' 1 500)).1
        ≤ MaxHiringFeeChart.amortizedAt acq S (growthFactor level)
            (scanMin (MaxHiringFeeChart.amortizedAt acq' S (growthFactor level))
              (MaxHiringFeeChart.amortizedAt acq' S (growthFactor level) 1, 1)
              (List.range' 1 500)).2 := j4 _ k2 k3
      _ ≤ MaxHiringFeeChart.amortizedAt acq' S (growthFactor level)
            (scanMin (MaxHiringFeeChart.amortizedAt acq' S (growthFactor level))
              (MaxHiringFeeChart.amortizedAt acq' S (growthFactor level) 1, 1)
              (List.range' 1 500)).2 := amortizedAt_mono k2 hh
      _ = _ := k1.symm

/-- C2 witness: instance at a concrete input. -/
theorem amortized_nonneg_and_monotone_witness :
    0 ≤ ExtractScript.amortizedCost 1000 8000 3 10 ∧
    (MaxHiringFeeChart.calculateOptimalAmortizedCost 1000 8000 3).1 ≤
      (MaxHiringFeeChart.calculateOptimalAmortizedCost 2000 8000 3).1 := by
  have h := amortized_nonneg_and_monotone 8000 3 1000 2000 10
    (by norm_num) (by norm_num) (by norm_num) (by norm_num)
  exact ⟨h.1, h.2.2 (by norm_num)⟩

/-- C4: the Cost Model (`calculateAmortizedCost` in AmortizedCostChart)
returns `(acquisitionCost + salary * ((1+g)^(T+1) - 1) / g) / T` where
`g = growthFactor level` and the acquisition cost is the model's hiring
cost input, except that when `g = 0` it returns
`(acquisitionCost + salary * (T + 1)) / T`. -/
theorem costModel_formula (S : ℚ) (T : ℕ) (level : ℚ)
    (f : AmortizedCostChart.HiringCostFormula) (hT : 1 ≤ T) :
    (growthFactor level = 0 →
      AmortizedCostChart.calculateAmortizedCost S T level f =
        (AmortizedCostChart.hiringCost S level f + S * ((T : ℚ) + 1)) / (T : ℚ)) ∧
    (growthFactor level ≠ 0 →
      AmortizedCostChart.calculateAmortizedCost S T level f =
        (AmortizedCostChart.hiringCost S level f +
          S * ((1 + growthFactor level) ^ (T + 1) - 1) / growthFactor level) / (T : ℚ)) := by
  constructor <;> intro hg
  · simp [AmortizedCostChart.calculateAmortizedCost, hg]
  · simp [AmortizedCostChart.calculateAmortizedCost, hg]

/-- C4 witness: instance at a concrete input with nonzero growth
factor. -/
theorem costModel_formula_witness :
    AmortizedCostChart.calculateAmortizedCost 8000 10 3
        ⟨fun _ => none⟩ =
      (AmortizedCostChart.hiringCost 8000 3 ⟨fun _ => none⟩ +
        8000 * ((1 + growthFactor 3) ^ (10 + 1) - 1) / growthFactor 3) / (10 : ℚ) :=
  (costModel_formula 8000 10 3 ⟨fun _ => none⟩ (by norm_num)).2
    (by unfold growthFactor; norm_num)

/-- C5: the growth factor equals `0.01 + (level - 1) * 0.0025`, is
strictly increasing in the level, and equals `0.01` at level 1. -/
theorem growthFactor_formula (level : ℚ) (hlevel : 1 ≤ level) :
    growthFactor level = 0.01 + (level - 1) * 0.0025 ∧
    growthFactor 1 = 0.01 ∧
    (∀ l₁ l₂ : ℚ, l₁ < l₂ → growthFactor l₁ < growthFactor l₂) := by
  refine ⟨rfl, by norm_num [growthFactor], ?_⟩
  intro l₁ l₂ h
  unfold growthFactor
  have : (l₁ - 1) * 0.0025 < (l₂ - 1) * 0.0025 :=
    mul_lt_mul_of_pos_right (by linarith) (by norm_num)
  linarith

/-- C5 witness: instance at level 3 with the strict increase 3 < 4. -/
theorem growthFactor_formula_witness :
    growthFactor 3 = 0.01 + ((3 : ℚ) - 1) * 0.0025 ∧ growthFactor 3 < growthFactor 4 := by
  have h := growthFactor_formula 3 (by norm_num)
  exact ⟨h.1, h.2.2 3 4 (by norm_num)⟩

/-- C7: the estimated acquisition cost is always at least the floor
constant 1000, and when the level has no reference points (missing or
empty) the result is exactly the fallback 1000. -/
theorem hiringCost_floor (S level : ℚ) (f : AmortizedCostChart.HiringCostFormula) :
    1000 ≤ AmortizedCostChart.hiringCost S level f ∧
    (f.parameters level = none → AmortizedCostChart.hiringCost S level f = 1000) ∧
    (f.parameters level = some [] → AmortizedCostChart.hiringCost S level f = 1000) := by
  refine ⟨?_, ?_, ?_⟩
  · rcases hp : f.parameters level with _ | points
    · simp [AmortizedCostChart.hiringCost, hp]
    · by_cases hnil : points = []
      · simp [AmortizedCostChart.hiringCost, hp, hnil]
      · rcases hi : AmortizedCostChart.interpolateHiringCost S points with _ | v
        · simp [AmortizedCostChart.hiringCost, hp, hnil, hi]
        · simp [AmortizedCostChart.hiringCost, hp, hnil, hi]
  · intro hp
    simp [AmortizedCostChart.hiringCost, hp]
  · intro hp
    simp [AmortizedCostChart.hiringCost, hp]

/-- C7 witness: instance with no reference data for the level. -/
theorem hiringCost_floor_witness :
    AmortizedCostChart.hiringCost 8000 5 ⟨fun _ => none⟩ = 1000 :=
  (hiringCost_floor 8000 5 ⟨fun _ => none⟩).2.1 rfl

/-- C8: both Fee Inverter callers (the chart data builder and the CSV
script) suppress a (salary, targetCost) cell exactly when the returned
acquisition cost is at most 1001 or above 1000000; any other result is
included. -/
theorem feeCell_suppression (t S level : ℚ) :
    (ExtractScript.hiringFeeCell t S level = none ↔
      (ExtractScript.findHiringCostForTarget t S level).1 ≤ 1001 ∨
        1000000 < (ExtractScript.findHiringCostForTarget t S level).1) ∧
    (MaxHiringFeeChart.feeCell t S level = none ↔
      (MaxHiringFeeChart.findHiringCostForTarget t S level).1 ≤ 1001 ∨
        1000000 < (MaxHiringFeeChart.findHiringCostForTarget t S level).1) := by
  constructor
  · simp only [ExtractScript.hiringFeeCell]
    rw [ite_some_eq_none_iff, not_and_or, not_lt, not_le]
  · simp only [MaxHiringFeeChart.feeCell]
    rw [ite_some_eq_none_iff, not_and_or, not_lt, not_le]

/-- C9: for every level at least 1 the growth factor is strictly
positive, so the `g = 0` defensive branches are unreachable: the Cost
Model always takes its geometric-sum branch, `findOptimalDuration` always
returns the scan result (never the default 100), and
`findAmortizedCostMinimum` never returns null. -/
theorem fallbacks_unreachable (level : ℚ) (hlevel : 1 ≤ level) :
    0 < growthFactor level ∧
    (∀ (S : ℚ) (T : ℕ) (f : AmortizedCostChart.HiringCostFormula),
      AmortizedCostChart.calculateAmortizedCost S T level f =
        (AmortizedCostChart.hiringCost S level f +
          S * ((1 + growthFactor level) ^ (T + 1) - 1) / growthFactor level) / (T : ℚ)) ∧
    (∀ h S : ℚ, MaxHiringFeeChart.findOptimalDuration h S level =
      (scanMin (MaxHiringFeeChart.amortizedAt h S (growthFactor level))
        (MaxHiringFeeChart.amortizedAt h S (growthFactor level) 1, 1)
        (List.range' 1 500)).2) ∧
    (∀ (S : ℚ) (f : AmortizedCostChart.HiringCostFormula),
      AmortizedCostChart.findAmortizedCostMinimum S level f ≠ none) := by
  have hg := growthFactor_ne_zero hlevel
  refine ⟨growthFactor_pos hlevel, ?_, ?_, ?_⟩
  · intro S T f
    simp [AmortizedCostChart.calculateAmortizedCost, hg]
  · intro h S
    simp [MaxHiringFeeChart.findOptimalDuration, hg]
  · intro S f
    simp [AmortizedCostChart.findAmortizedCostMinimum, hg]

/-- C9 witness: instance at level 3. -/
theorem fallbacks_unreachable_witness :
    0 < growthFactor 3 ∧
    AmortizedCostChart.findAmortizedCostMinimum 8000 3 ⟨fun _ => none⟩ ≠ none := by
  have h := fallbacks_unreachable 3 (by norm_num)
  exact ⟨h.1, h.2.2.2 8000 ⟨fun _ => none⟩⟩

/-- The script optimizer as the 1..150 scan (definitional). -/
theorem scriptOpt_def (h S level : ℚ) :
    ExtractScript.calculateOptimalAmortizedCost h S level =
      scanMin (ExtractScript.amortizedCost h S level)
        (ExtractScript.amortizedCost h S level 1, 1) (List.range' 1 150) := rfl

/-- The script optimizer's minimal cost is monotone in the hiring
cost. -/
theorem scriptOpt_mono (S level : ℚ) {h h' : ℚ} (hh : h ≤ h') :
    (ExtractScript.calculateOptimalAmortizedCost h S level).1 ≤
      (ExtractScript.calculateOptimalAmortizedCost h' S level).1 := by
  obtain ⟨j1, j2, j3, j4, j5⟩ :=
    scanMin_from_one (ExtractScript.amortizedCost h S level) 150 (by norm_num)
  obtain ⟨k1, k2, k3, k4, k5⟩ :=
    scanMin_from_one (ExtractScript.amortizedCost h' S level) 150 (by norm_num)
  rw [scriptOpt_def, scriptOpt_def]
  calc (scanMin (ExtractScript.amortizedCost h S level)
          (ExtractScript.amortizedCost h S level 1, 1) (List.range' 1 150)).1
      ≤ ExtractScript.amortizedCost h S level
          (scanMin (ExtractScript.amortizedCost h' S level)
            (ExtractScript.amortizedCost h' S level 1, 1) (List.range' 1 150)).2 :=
        j4 _ k2 k3
    _ ≤ ExtractScript.amortizedCost h' S level
          (scanMin (ExtractScript.amortizedCost h' S level)
            (ExtractScript.amortizedCost h' S level 1, 1) (List.range' 1 150)).2 :=
        scriptAmortized_mono k2 hh
    _ = _ := k1.symm

/-- The script optimizer's minimal cost rises by at most the rise of the
hiring cost (Lipschitz bound with constant 1). -/
theorem scriptOpt_lipschitz (S level : ℚ) {h h' : ℚ} (hh : h ≤ h') :
    (ExtractScript.calculateOptimalAmortizedCost h' S level).1 ≤
      (ExtractScript.calculateOptimalAmortizedCost h S level).1 + (h' - h) := by
  obtain ⟨j1, j2, j3, j4, j5⟩ :=
    scanMin_from_one (ExtractScript.amortizedCost h S level) 150 (by norm_num)
  obtain ⟨k1, k2, k3, k4, k5⟩ :=
    scanMin_from_one (ExtractScript.amortizedCost h' S level) 150 (by norm_num)
  rw [scriptOpt_def, scriptOpt_def]
  have hT1 : (1 : ℚ) ≤ ((scanMin (ExtractScript.amortizedCost h S level)
      (ExtractScript.amortizedCost h S level 1, 1) (List.range' 1 150)).2 : ℚ) := by
    exact_mod_cast j2
  calc (scanMin (ExtractScript.amortizedCost h' S level)
          (ExtractScript.amortizedCost h' S level 1, 1) (List.range' 1 150)).1
      ≤ ExtractScript.amortizedCost h' S level
          (scanMin (ExtractScript.amortizedCost h S level)
            (ExtractScript.amortizedCost h S level 1, 1) (List.range' 1 150)).2 :=
        k4 _ j2 j3
    _ = ExtractScript.amortizedCost h S level
          (scanMin (ExtractScript.amortizedCost h S level)
            (ExtractScript.amortizedCost h S level 1, 1) (List.range' 1 150)).2 +
        (h' - h) / ((scanMin (ExtractScript.amortizedCost h S level)
            (ExtractScript.amortizedCost h S level 1, 1) (List.range' 1 150)).2 : ℚ) :=
        scriptAmortized_shift h h' S level _
    _ ≤ _ := by
        rw [← j1]
        have := div_le_self (by linarith : (0 : ℚ) ≤ h' - h) hT1
        linarith

/-- Two optimal costs differ by at most the difference of the hiring
costs. -/
theorem scriptOpt_abs_bound (S level a b : ℚ) :
    |(ExtractScript.calculateOptimalAmortizedCost a S level).1 -
      (ExtractScript.calculateOptimalAmortizedCost b S level).1| ≤ |a - b| := by
  rcases le_total a b with hab | hab
  · have h1 := scriptOpt_mono S level hab
    have h2 := scriptOpt_lipschitz S level hab
    have habs : |a - b| = b - a := by
      rw [abs_sub_comm, abs_of_nonneg (by linarith)]
    rw [abs_sub_le_iff, habs]
    constructor <;> linarith
  · have h1 := scriptOpt_mono S level hab
    have h2 := scriptOpt_lipschitz S level hab
    have habs : |a - b| = a - b := abs_of_nonneg (by linarith)
    rw [abs_sub_le_iff, habs]
    constructor <;> linarith

/-- One-step unfolding of the script's bisection loop (zeta-reduced). -/
theorem searchLoop_succ (t S level : ℚ) (n : ℕ) (low high : ℚ) (best : ℚ × ℕ) :
    ExtractScript.searchLoop t S level (n + 1) low high best =
      if |(ExtractScript.calculateOptimalAmortizedCost ((low + high) / 2) S level).1 - t| < 1 then
        ((low + high) / 2,
          (ExtractScript.calculateOptimalAmortizedCost ((low + high) / 2) S level).2)
      else if t < (ExtractScript.calculateOptimalAmortizedCost ((low + high) / 2) S level).1 then
        ExtractScript.searchLoop t S level n low ((low + high) / 2)
          ((low + high) / 2,
            (ExtractScript.calculateOptimalAmortizedCost ((low + high) / 2) S level).2)
      else
        ExtractScript.searchLoop t S level n ((low + high) / 2) high
          ((low + high) / 2,
            (ExtractScript.calculateOptimalAmortizedCost ((low + high) / 2) S level).2) := rfl

/-- Base unfolding of the script's bisection loop. -/
theorem searchLoop_zero (t S level : ℚ) (low high : ℚ) (best : ℚ × ℕ) :
    ExtractScript.searchLoop t S level 0 low high best = best := rfl

/-- If the target is the optimal cost at some `c` inside the current
bracket and the bracket is narrower than `2 ^ n`, then `n + 1` remaining
bisection iterations suffice to return an acquisition cost whose optimal
amortized cost is within 1 of the target. -/
theorem searchLoop_cost_close (S level c t : ℚ)
    (ht : t = (ExtractScript.calculateOptimalAmortizedCost c S level).1) :
    ∀ (n : ℕ) (low high : ℚ) (best : ℚ × ℕ),
      low ≤ c → c ≤ high → high - low < 2 ^ n →
      |(ExtractScript.calculateOptimalAmortizedCost
          (ExtractScript.searchLoop t S level (n + 1) low high best).1 S level).1 - t| < 1 := by
  intro n
  induction n with
  | zero =>
    intro low high best hlow hhigh hw
    have hbound : |(ExtractScript.calculateOptimalAmortizedCost ((low + high) / 2) S level).1 -
        t| < 1 := by
      have h1 := scriptOpt_abs_bound S level ((low + high) / 2) c
      rw [← ht] at h1
      have h2 : |(low + high) / 2 - c| ≤ (high - low) / 2 := by
        rw [abs_sub_le_iff]
        constructor <;> linarith
      have h3 : (high - low) / 2 < 1 := by
        have : (2 : ℚ) ^ (0 : ℕ) = 1 := pow_zero 2
        linarith
      linarith
    rw [searchLoop_succ, if_pos hbound]
    exact hbound
  | succ n ih =>
    intro low high best hlow hhigh hw
    have hpow : (2 : ℚ) ^ (n + 1) = 2 * 2 ^ n := by
      rw [pow_succ]
      ring
    rw [searchLoop_succ]
    by_cases hbreak :
      |(ExtractScript.calculateOptimalAmortizedCost ((low + high) / 2) S level).1 - t| < 1
    · rw [if_pos hbreak]
      exact hbreak
    · rw [if_neg hbreak]
      by_cases hgt :
        t < (ExtractScript.calculateOptimalAmortizedCost ((low + high) / 2) S level).1
      · rw [if_pos hgt]
        have hcmid : c ≤ (low + high) / 2 := by
          by_contra hcon
          push_neg at hcon
          have hm := scriptOpt_mono S level (le_of_lt hcon)
          rw [← ht] at hm
          linarith
        exact ih low ((low + high) / 2) _ hlow hcmid (by linarith)
      · rw [if_neg hgt]
        push_neg at hgt
        have hmidc : (low + high) / 2 ≤ c := by
          by_contra hcon
          push_neg at hcon
          have hm := scriptOpt_mono S level (le_of_lt hcon)
          rw [← ht] at hm
          have hge : 1 ≤ |(ExtractScript.calculateOptimalAmortizedCost
              ((low + high) / 2) S level).1 - t| := not_lt.mp hbreak
          rw [abs_of_nonpos (by linarith)] at hge
          linarith
        exact ih ((low + high) / 2) high _ hmidc hhigh (by linarith)

/-- C3 (amended): for any salary and level, and any acquisition cost `c`
strictly inside the search bracket [1000, 1000000], the Fee Inverter run
on the optimal cost at `c` returns an acquisition cost whose own optimal
amortized cost is within 1 of that target cost.  (The returned
acquisition cost itself need not be within 1 of `c`: the cost tolerance
of 1 translates to an acquisition-cost slack of up to the optimal
duration.) -/
theorem feeInverter_roundtrip_cost (S level c : ℚ)
    (h1 : 1000 < c) (h2 : c < 1000000) :
    |(ExtractScript.calculateOptimalAmortizedCost
        (ExtractScript.findHiringCostForTarget
          (ExtractScript.calculateOptimalAmortizedCost c S level).1 S level).1 S level).1 -
      (ExtractScript.calculateOptimalAmortizedCost c S level).1| < 1 := by
  have h := searchLoop_cost_close S level c
    (ExtractScript.calculateOptimalAmortizedCost c S level).1 rfl 49
    1000 1000000 (1000, 1) (le_of_lt h1) (le_of_lt h2) (by norm_num)
  exact h

/-- C3 amended witness: instance at a concrete input inside the
bracket. -/
theorem feeInverter_roundtrip_cost_witness :
    |(ExtractScript.calculateOptimalAmortizedCost
        (ExtractScript.findHiringCostForTarget
          (ExtractScript.calculateOptimalAmortizedCost 2000 8000 3).1 8000 3).1 8000 3).1 -
      (ExtractScript.calculateOptimalAmortizedCost 2000 8000 3).1| < 1 :=
  feeInverter_roundtrip_cost 8000 3 2000 (by norm_num) (by norm_num)

set_option maxRecDepth 8000 in
set_option maxHeartbeats 16000000 in
set_option exponentiation.threshold 600 in
attribute [local semireducible] Rat.mul Rat.add Rat.sub Rat.inv Rat.ofScientific in
/-- C3 counterexample: at salary 100, level 3 and acquisition cost
`c = 500450` (strictly inside the bracket), the optimizer's optimal cost
at `c` fed back into the Fee Inverter returns 500500 (the first bisection
midpoint, whose optimal cost is within the tolerance of the target), and
`|500500 - 500450| = 50 > 1`, so the round trip is not within the claimed
tolerance of the original acquisition cost. -/
theorem feeInverter_roundtrip_cex :
    (1000 : ℚ) < 500450 ∧ (500450 : ℚ) < 1000000 ∧
    ¬ |(ExtractScript.findHiringCostForTarget
        (ExtractScript.calculateOptimalAmortizedCost 500450 100 3).1 100 3).1 -
          500450| ≤ 1 := by
  decide

/-- C10: whenever the chart-side Duration Optimizer (scan 1..500) finds
an optimal duration of at most 150, the extraction script's optimizer
(scan 1..150) returns the same minimal cost and the same duration. -/
theorem optimizers_agree (h S level : ℚ) (hS : 0 < S) (hlevel : 1 ≤ level)
    (hdur : (MaxHiringFeeChart.calculateOptimalAmortizedCost h S level).2 ≤ 150) :
    MaxHiringFeeChart.calculateOptimalAmortizedCost h S level =
      ExtractScript.calculateOptimalAmortizedCost h S level := by
  have hg := growthFactor_ne_zero hlevel
  have hf : MaxHiringFeeChart.amortizedAt h S (growthFactor level) =
      ExtractScript.amortizedCost h S level := by
    funext T
    simp only [MaxHiringFeeChart.amortizedAt, ExtractScript.amortizedCost]
    rw [mul_div_assoc]
  have hsplit : List.range' 1 500 = List.range' 1 150 ++ List.range' 151 350 := by
    have hx := List.range'_append 1 150 350 1
    norm_num at hx
    exact hx.symm
  rw [maxFee_opt_eq_scan h S level hg, hf] at hdur ⊢
  rw [scriptOpt_def]
  rw [hsplit, scanMin_append] at hdur ⊢
  obtain ⟨i1, i2, i3, i4, i5⟩ :=
    scanMin_from_one (ExtractScript.amortizedCost h S level) 150 (by norm_num)
  have hacc : ∀ T ∈ List.range' 151 350,
      (scanMin (ExtractScript.amortizedCost h S level)
        (ExtractScript.amortizedCost h S level 1, 1) (List.range' 1 150)).2 ≤ T := by
    intro T hT
    have := (List.mem_range'_1.mp hT).1
    omega
  have hpw : (List.range' 151 350).Pairwise (· ≤ ·) :=
    (List.pairwise_lt_range' 151 350).imp le_of_lt
  obtain ⟨s1, s2, s3, s4, s5, s6⟩ :=
    scanMin_spec (ExtractScript.amortizedCost h S level) (List.range' 151 350)
      (scanMin (ExtractScript.amortizedCost h S level)
        (ExtractScript.amortizedCost h S level 1, 1) (List.range' 1 150)) i1 hacc hpw
  rcases s4 with heq | hmem
  · exact heq
  · have := (List.mem_range'_1.mp hmem).1
    omega

set_option maxRecDepth 8000 in
set_option maxHeartbeats 16000000 in
set_option exponentiation.threshold 600 in
attribute [local semireducible] Rat.mul Rat.add Rat.sub Rat.inv Rat.ofScientific in
/-- C10 witness: the spec's boundary scenario (level 3, salary 8000,
acquisition cost 1000) has its chart-side optimum within 150 weeks, so
both optimizers agree there. -/
theorem optimizers_agree_witness :
    MaxHiringFeeChart.calculateOptimalAmortizedCost 1000 8000 3 =
      ExtractScript.calculateOptimalAmortizedCost 1000 8000 3 :=
  optimizers_agree 1000 8000 3 (by norm_num) (by norm_num) (by decide)

/-- Sorting by salary with distinct salaries produces a strictly
increasing salary chain. -/
theorem mergeSort_salary_strict (points : List Point)
    (hdist : points.Pairwise (fun p q => p.salary ≠ q.salary)) :
    (points.mergeSort (fun a b => decide (a.salary ≤ b.salary))).Pairwise
      (fun p q => p.salary < q.salary) := by
  have hsorted : (points.mergeSort (fun a b => decide (a.salary ≤ b.salary))).Pairwise
      (fun a b => (decide (a.salary ≤ b.salary)) = true) :=
    List.sorted_mergeSort
      (fun a b c hab hbc => by
        simp only [decide_eq_true_eq] at *
        exact le_trans hab hbc)
      (fun a b => by
        simp only [Bool.or_eq_true, decide_eq_true_eq]
        exact le_total a.salary b.salary)
      points
  have hperm := List.mergeSort_perm points (fun a b => decide (a.salary ≤ b.salary))
  have hdist' : (points.mergeSort (fun a b => decide (a.salary ≤ b.salary))).Pairwise
      (fun p q => p.salary ≠ q.salary) :=
    (hperm.pairwise_iff (fun h => h.symm)).mpr hdist
  exact (hsorted.and hdist').imp (fun hpq =>
    lt_of_le_of_ne (by simpa using hpq.1) hpq.2)

/-- The below-range extrapolation yields nothing when the queried salary
is not below the first sample. -/
theorem extrapolateLow_eq_none (s : ℚ) (l : List Point)
    (h : ∀ p ∈ l.head?, ¬ s < p.salary) :
    AmortizedCostChart.extrapolateLow s l = none := by
  rcases l with _ | ⟨q1, qs⟩
  · rfl
  · rcases qs with _ | ⟨q2, qs'⟩
    · rfl
    · have hq1 := h q1 (by simp)
      simp [AmortizedCostChart.extrapolateLow, hq1]

/-- The above-range extrapolation yields nothing when the queried salary
is not above the last sample. -/
theorem extrapolateHigh_eq_none (s : ℚ) (l : List Point)
    (h : ∀ p ∈ l.reverse.head?, ¬ p.salary < s) :
    AmortizedCostChart.extrapolateHigh s l = none := by
  unfold AmortizedCostChart.extrapolateHigh
  rcases hr : l.reverse with _ | ⟨q2, qs⟩
  · rfl
  · rcases qs with _ | ⟨q1, qs'⟩
    · rfl
    · have hq2 := h q2 (by simp [hr])
      simp [hq2]

/-- The bracketing-pair loop started past a prefix of samples below the
query lands on the first bracketing pair. -/
theorem interpolatePairs_middle (s : ℚ) (p1 p2 : Point) (B : List Point)
    (hs1 : p1.salary ≤ s) (hs2 : s ≤ p2.salary) (hp1s : p1.salary < s) :
    ∀ A : List Point, (∀ a ∈ A, a.salary < s) →
      AmortizedCostChart.interpolatePairs s (A ++ p1 :: p2 :: B) =
        some (p1.cost + (s - p1.salary) / (p2.salary - p1.salary) * (p2.cost - p1.cost)) := by
  intro A
  induction A with
  | nil =>
    intro _
    simp [AmortizedCostChart.interpolatePairs, hs1, hs2]
  | cons a A' ih =>
    intro hA
    rcases A' with _ | ⟨b, A''⟩
    · have hcond : ¬(a.salary ≤ s ∧ s ≤ p1.salary) := by
        rintro ⟨_, hc⟩
        linarith
      simp only [List.nil_append] at ih ⊢
      simp only [List.cons_append, AmortizedCostChart.interpolatePairs, if_neg hcond]
      exact ih (fun x hx => absurd hx (List.not_mem_nil x))
    · have hb : b.salary < s := hA b (by simp)
      have hcond : ¬(a.salary ≤ s ∧ s ≤ b.salary) := by
        rintro ⟨_, hc⟩
        linarith
      simp only [List.cons_append, AmortizedCostChart.interpolatePairs, if_neg hcond]
      have := ih (fun x hx => hA x (List.mem_cons_of_mem a hx))
      simpa [List.cons_append] using this

/-- C6: for a non-empty list of reference points with pairwise distinct
salaries, the interpolator returns a sample's exact cost when queried at
that sample's salary, and returns the average of the two costs when
queried at the salary midpoint of two adjacent samples (adjacent in the
salary-sorted order used by the interpolator). -/
theorem interpolator_exact_and_midpoint (points : List Point)
    (hne : points ≠ [])
    (hdist : points.Pairwise (fun p q => p.salary ≠ q.salary)) :
    (∀ p ∈ points,
      AmortizedCostChart.interpolateHiringCost p.salary points = some p.cost) ∧
    (∀ (A B : List Point) (p1 p2 : Point),
      points.mergeSort (fun a b => decide (a.salary ≤ b.salary)) = A ++ p1 :: p2 :: B →
      AmortizedCostChart.interpolateHiringCost ((p1.salary + p2.salary) / 2) points =
        some ((p1.cost + p2.cost) / 2)) := by
  constructor
  · intro p hp
    rcases points with _ | ⟨x, xs⟩
    · exact absurd hp (List.not_mem_nil p)
    rcases xs with _ | ⟨y, rest⟩
    · have hpx : p = x := by simpa using hp
      subst hpx
      rfl
    · have hperm :=
        List.mergeSort_perm (x :: y :: rest) (fun a b => decide (a.salary ≤ b.salary))
      have hpmem : p ∈ (x :: y :: rest).mergeSort (fun a b => decide (a.salary ≤ b.salary)) :=
        hperm.mem_iff.mpr hp
      rcases hfind : ((x :: y :: rest).mergeSort
          (fun a b => decide (a.salary ≤ b.salary))).find?
          (fun q => decide (q.salary = p.salary)) with _ | q
      · exfalso
        have := List.find?_eq_none.mp hfind p hpmem
        simp at this
      · have hqs : q.salary = p.salary := by
          have := List.find?_some hfind
          simpa using this
        have hqmem : q ∈ x :: y :: rest :=
          hperm.mem_iff.mp (List.mem_of_find?_eq_some hfind)
        have hqp : q = p := by
          by_contra hne'
          exact List.Pairwise.forall (fun _ _ h => Ne.symm h) hdist hqmem hp hne' hqs
        simp only [AmortizedCostChart.interpolateHiringCost]
        rw [hfind, hqp]
  · intro A B p1 p2 hsort
    have hstrict := mergeSort_salary_strict points hdist
    rw [hsort] at hstrict
    obtain ⟨hpwA, hpwP, hcross⟩ := List.pairwise_append.mp hstrict
    have hp1p2 : p1.salary < p2.salary :=
      (List.pairwise_cons.mp hpwP).1 p2 (by simp)
    have hB : ∀ q ∈ B, p2.salary < q.salary :=
      (List.pairwise_cons.mp (List.pairwise_cons.mp hpwP).2).1
    have hA : ∀ a ∈ A, a.salary < p1.salary :=
      fun a ha => hcross a ha p1 (by simp)
    have hs1 : p1.salary < (p1.salary + p2.salary) / 2 := by linarith
    have hs2 : (p1.salary + p2.salary) / 2 < p2.salary := by linarith
    have hlen : 2 ≤ points.length := by
      have hl : (points.mergeSort (fun a b => decide (a.salary ≤ b.salary))).length =
          points.length := List.length_mergeSort points
      rw [hsort] at hl
      simp only [List.length_append, List.length_cons] at hl
      omega
    rcases points with _ | ⟨x, xs⟩
    · simp at hlen
    rcases xs with _ | ⟨y, rest⟩
    · simp at hlen
    have hfind' : (A ++ p1 :: p2 :: B).find?
        (fun q => decide (q.salary = (p1.salary + p2.salary) / 2)) = none := by
      apply List.find?_eq_none.mpr
      intro q hq
      simp only [decide_eq_true_eq]
      rcases List.mem_append.mp hq with hqA | hqP
      · have := hA q hqA
        intro heq
        rw [heq] at this
        linarith
      · rcases List.mem_cons.mp hqP with hq1 | hqP'
        · subst hq1
          intro heq
          linarith
        rcases List.mem_cons.mp hqP' with hq2 | hqB
        · subst hq2
          intro heq
          linarith
        · have := hB q hqB
          intro heq
          rw [heq] at this
          linarith
    have hlow' : AmortizedCostChart.extrapolateLow ((p1.salary + p2.salary) / 2)
        (A ++ p1 :: p2 :: B) = none := by
      apply extrapolateLow_eq_none
      intro p hp
      rcases A with _ | ⟨a, A'⟩
      · simp only [List.nil_append, List.head?_cons, Option.mem_def,
          Option.some.injEq] at hp
        rw [← hp]
        linarith
      · simp only [List.cons_append, List.head?_cons, Option.mem_def,
          Option.some.injEq] at hp
        have := hA a (by simp)
        rw [← hp]
        intro hcon
        linarith
    have hhigh' : AmortizedCostChart.extrapolateHigh ((p1.salary + p2.salary) / 2)
        (A ++ p1 :: p2 :: B) = none := by
      apply extrapolateHigh_eq_none
      intro p hp
      rcases hBr : B.reverse with _ | ⟨bl, B'⟩
      · have hBnil : B = [] := List.reverse_eq_nil_iff.mp hBr
        subst hBnil
        simp only [List.reverse_append, List.reverse_cons, List.reverse_nil,
          List.nil_append, List.append_assoc, List.cons_append, List.head?_cons,
          Option.mem_def, Option.some.injEq] at hp
        rw [← hp]
        linarith
      · have hblB : bl ∈ B := by
          rw [← List.mem_reverse, hBr]
          simp
        have hble := hB bl hblB
        simp only [List.reverse_append, List.reverse_cons, hBr,
          List.append_assoc, List.cons_append, List.nil_append, List.head?_cons,
          Option.mem_def, Option.some.injEq] at hp
        rw [← hp]
        intro hcon
        linarith
    have hmid := interpolatePairs_middle ((p1.salary + p2.salary) / 2) p1 p2 B
      (le_of_lt hs1) (le_of_lt hs2) hs1 A
      (fun a ha => lt_trans (hA a ha) hs1)
    simp only [AmortizedCostChart.interpolateHiringCost]
    rw [hsort]
    simp only [hfind', hlow', hhigh', hmid]
    have hne2 : p2.salary - p1.salary ≠ 0 := sub_ne_zero.mpr (ne_of_gt hp1p2)
    congr 1
    field_simp
    ring

/-- C6 witness: two market samples (6000, 30000) and (7000, 10000);
querying at 6000 returns 30000 exactly, and querying at the midpoint
6500 returns the average 20000. -/
theorem interpolator_exact_and_midpoint_witness :
    AmortizedCostChart.interpolateHiringCost 6000
      [⟨6000, 30000⟩, ⟨7000, 10000⟩] = some 30000 ∧
    AmortizedCostChart.interpolateHiringCost 6500
      [⟨6000, 30000⟩, ⟨7000, 10000⟩] = some 20000 := by
  have hd : ([⟨6000, 30000⟩, ⟨7000, 10000⟩] : List Point).Pairwise
      (fun p q => p.salary ≠ q.salary) := by
    simp only [List.pairwise_cons, List.mem_cons, List.mem_singleton]
    refine ⟨?_, by simp, List.Pairwise.nil⟩
    rintro q (rfl | h)
    · norm_num
    · simp at h
  have h := interpolator_exact_and_midpoint [⟨6000, 30000⟩, ⟨7000, 10000⟩]
    (by simp) hd
  have hsort : ([⟨6000, 30000⟩, ⟨7000, 10000⟩] : List Point).mergeSort
      (fun a b => decide (a.salary ≤ b.salary)) =
      [] ++ (⟨6000, 30000⟩ : Point) :: (⟨7000, 10000⟩ : Point) :: [] := by
    rw [List.mergeSort_of_sorted]
    · rfl
    · simp only [List.pairwise_cons, List.mem_cons, List.mem_singleton,
        decide_eq_true_eq]
      refine ⟨?_, by simp, List.Pairwise.nil⟩
      rintro q (rfl | h)
      · norm_num
      · simp at h
  constructor
  · have hx := h.1 ⟨6000, 30000⟩ (by simp)
    exact hx
  · have hx := h.2 [] [] ⟨6000, 30000⟩ ⟨7000, 10000⟩ hsort
    norm_num at hx
    exact hx

/-- C8 witness: the suppression equivalence instantiated at a concrete
(salary, targetCost, level) cell of the script. -/
theorem feeCell_suppression_witness :
    ExtractScript.hiringFeeCell 10000 7000 4 = none ↔
      (ExtractScript.findHiringCostForTarget 10000 7000 4).1 ≤ 1001 ∨
        1000000 < (ExtractScript.findHiringCostForTarget 10000 7000 4).1 :=
  (feeCell_suppression 10000 7000 4).1
